import Mathlib

/-!
Verification of the crystal_packing repository: a shallow embedding in Lean 4
of the packing-state model (src/crystal-packing/src/state/packed.rs), the
wallpaper-group tables (src/crystal-packing/src/wallpaper.rs), the cell and
site initialisation and the Monte-Carlo acceptance rule (src/src/lib.rs,
src/src/site.rs), together with theorems settling the frozen claims about
score, the intersection check, the state ordering, the wallpaper tables, the
site initialisation and the optimizer output.

Machine floats (f64) are modelled by the real numbers; the claims settled
here concern control flow, exact table data and order/sign facts that do not
depend on rounding.
-/

open Real

/-- Rigid (affine) motion of the plane: a 2x2 linear part stored row-major
(m00 m01 / m10 m11) and a translation (tx, ty). Models the Transform2
wrapper around nalgebra's IsometryMatrix2 (the transform code itself is not
under src/; the interface is spec section 3, and the symbolic parser below is
the present SymmetryTransform of src/src/lib.rs). -/
structure Transform2 where
  m00 : ℝ
  m01 : ℝ
  m10 : ℝ
  m11 : ℝ
  tx : ℝ
  ty : ℝ

/-- Identity transform. -/
noncomputable def Transform2.identity : Transform2 := ⟨1, 0, 0, 1, 0, 0⟩

/-- Transform2::new(rotation, (tx, ty)): rotation matrix for the angle plus a
translation. -/
noncomputable def Transform2.new (angle : ℝ) (t : ℝ × ℝ) : Transform2 :=
  ⟨Real.cos angle, -Real.sin angle, Real.sin angle, Real.cos angle, t.1, t.2⟩

/-- Composition of isometries (self after other): matrix product of the
linear parts, and self applied to the other's translation. -/
noncomputable def Transform2.compose (f g : Transform2) : Transform2 :=
  ⟨f.m00 * g.m00 + f.m01 * g.m10, f.m00 * g.m01 + f.m01 * g.m11,
   f.m10 * g.m00 + f.m11 * g.m10, f.m10 * g.m01 + f.m11 * g.m11,
   f.m00 * g.tx + f.m01 * g.ty + f.tx,
   f.m10 * g.tx + f.m11 * g.ty + f.ty⟩

/-- Squared distance between the translation parts of two transforms:
(t1.position() - t2.position()).norm_squared() in the source. -/
noncomputable def Transform2.distSq (t1 t2 : Transform2) : ℝ :=
  (t1.tx - t2.tx) ^ 2 + (t1.ty - t2.ty) ^ 2

/-- Accumulator of SymmetryTransform::parse_ops (src/src/lib.rs lines 80-122):
the row vector being built, the pending sign, the constant term and the
pending * or / operator. -/
structure OpsAcc where
  vx : ℝ
  vy : ℝ
  sign : ℝ
  constant : ℝ
  op : Option Char

/-- One character step of parse_ops, mirroring the match in
src/src/lib.rs lines 86-118. -/
noncomputable def opsStep (st : OpsAcc) (c : Char) : OpsAcc :=
  if c = 'x' then { st with vx := st.sign, sign := 1 }
  else if c = 'y' then { st with vy := st.sign, sign := 1 }
  else if c = '*' ∨ c = '/' then { st with op := some c }
  else if c = '-' then { st with sign := -1 }
  else if c.isDigit then
    let val : ℝ := (c.toNat - 48 : ℕ)
    match st.op with
    | some o =>
        { st with
          constant :=
            if o = '/' then st.sign * st.constant / val
            else if o = '*' then st.sign * st.constant * val
            else 0,
          op := none, sign := 1 }
    | none => { st with constant := st.sign * val, sign := 1 }
  else st

/-- SymmetryTransform::parse_ops on one comma-separated component: the linear
row and the constant translation entry. -/
noncomputable def parse_ops (s : List Char) : (ℝ × ℝ) × ℝ :=
  let st := s.foldl opsStep ⟨0, 0, 1, 0, none⟩
  ((st.vx, st.vy), st.constant)

/-- Leading and trailing parentheses stripped, as trim_matches does in
SymmetryTransform::new. -/
def trimParens (l : List Char) : List Char :=
  ((l.dropWhile fun c => c = '(' ∨ c = ')').reverse.dropWhile
      fun c => c = '(' ∨ c = ')').reverse

/-- SymmetryTransform::new (src/src/lib.rs lines 124-146): strip parentheses,
split at commas, parse each component into a row of the linear part and a
translation entry; rows not provided stay those of the identity. The
crystal-packing crate's Transform2::from_operations is this parser behind a
Result. -/
noncomputable def Transform2.from_operations (s : String) : Transform2 :=
  let ops := (trimParens s.toList).splitOn ','
  let row0 := match ops[0]? with
    | some op => parse_ops op
    | none => ((1, 0), 0)
  let row1 := match ops[1]? with
    | some op => parse_ops op
    | none => ((0, 1), 0)
  ⟨row0.1.1, row0.1.2, row1.1.1, row1.1.2, row0.2, row1.2⟩

/-- Crystal families of 2D space (src/src/lib.rs lines 30-36). -/
inductive CrystalFamily where
  | Monoclinic
  | Orthorhombic
  | Hexagonal
  | Tetragonal
deriving DecidableEq

/-- Unit cell: side lengths, angle and family
(src/src/lib.rs lines 338-344; the crystal-packing Cell2 stores the same
data behind accessors a(), b(), angle()). -/
structure Cell where
  x_len : ℝ
  y_len : ℝ
  angle : ℝ
  family : CrystalFamily

/-- Accessor a() of Cell2. -/
def Cell.a (c : Cell) : ℝ := c.x_len

/-- Accessor b() of Cell2. -/
def Cell.b (c : Cell) : ℝ := c.y_len

/-- Cell::from_family (src/src/lib.rs lines 346-378): both sides seeded at
the given length; the angle is pi/3 for Hexagonal, pi/2 otherwise. -/
noncomputable def Cell.from_family (family : CrystalFamily) (length : ℝ) : Cell :=
  match family with
  | CrystalFamily.Hexagonal => ⟨length, length, Real.pi / 3, family⟩
  | CrystalFamily.Tetragonal => ⟨length, length, Real.pi / 2, family⟩
  | CrystalFamily.Orthorhombic => ⟨length, length, Real.pi / 2, family⟩
  | CrystalFamily.Monoclinic => ⟨length, length, Real.pi / 2, family⟩

/-- Cell area (src/src/lib.rs line 409): angle.sin() * x_len * y_len. -/
noncomputable def Cell.area (c : Cell) : ℝ :=
  Real.sin c.angle * c.x_len * c.y_len

/-- Modelled from the spec: Cartesian conversion of fractional coordinates
(spec section 3, Cell), (u, v) mapped to u a xhat + v (b cos gamma, b sin gamma);
the crystal-packing cell.rs is not under src/. -/
noncomputable def Cell.to_cartesian (c : Cell) (u v : ℝ) : ℝ × ℝ :=
  (u * c.x_len + v * (c.y_len * Real.cos c.angle), v * (c.y_len * Real.sin c.angle))

/-- Modelled from the spec: to_cartesian_isometry (spec section 4.3) converts a
transform in fractional coordinates to world coordinates; the translation goes
through to_cartesian. The crystal-packing cell.rs is not under src/. -/
noncomputable def Cell.to_cartesian_isometry (c : Cell) (t : Transform2) : Transform2 :=
  { t with
    tx := (c.to_cartesian t.tx t.ty).1,
    ty := (c.to_cartesian t.tx t.ty).2 }

/-- Integers from -n to n, the index square of periodic_images. -/
def intRange (n : ℕ) : List ℤ :=
  (List.range (2 * n + 1)).map fun k => (k : ℤ) - (n : ℤ)

/-- Modelled from the spec: the (i, j) periodic image of a fractional-frame
transform, its world translation offset by i times the a-vector plus j times
the b-vector (spec section 4.3); the crystal-packing cell.rs is not under src/. -/
noncomputable def Cell.periodicImage (c : Cell) (t : Transform2) (i j : ℤ) : Transform2 :=
  let tc := c.to_cartesian_isometry t
  { tc with
    tx := tc.tx + (i : ℝ) * c.x_len + (j : ℝ) * (c.y_len * Real.cos c.angle),
    ty := tc.ty + (j : ℝ) * (c.y_len * Real.sin c.angle) }

/-- Modelled from the spec: periodic_images(t, range, include_self) yields
every image of t for (i, j) in the square [-range, range]^2, omitting (0, 0)
when include_self is false (spec section 4.3); the crystal-packing cell.rs is
not under src/. -/
noncomputable def Cell.periodic_images (c : Cell) (t : Transform2) (range : ℕ)
    (includeSelf : Bool) : List Transform2 :=
  (intRange range).bind fun i =>
    (intRange range).filterMap fun j =>
      if includeSelf = false ∧ i = 0 ∧ j = 0 then none
      else some (c.periodicImage t i j)

/-- Wallpaper descriptor kept inside a state
(src/crystal-packing/src/wallpaper.rs lines 24-28). -/
structure Wallpaper where
  name : String
  family : CrystalFamily

/-- Wyckoff site data (src/crystal-packing/src/wallpaper.rs lines 48-55). -/
structure WyckoffSite where
  letter : Char
  symmetries : List Transform2
  num_rotations : ℕ
  mirror_primary : Bool
  mirror_secondary : Bool

/-- Multiplicity of a Wyckoff site: the length of its symmetry list
(src/crystal-packing/src/wallpaper.rs lines 72-74). -/
def WyckoffSite.multiplicity (w : WyckoffSite) : ℕ := w.symmetries.length

/-- An occupied Wyckoff site: the site data plus the free scalars x, y, angle
(src/src/site.rs lines 16-22). -/
structure OccupiedSite where
  wyckoff : WyckoffSite
  x : ℝ
  y : ℝ
  angle : ℝ

/-- Multiplicity of an occupied site (src/src/site.rs lines 25-27). -/
def OccupiedSite.multiplicity (s : OccupiedSite) : ℕ := s.wyckoff.symmetries.length

/-- OccupiedSite::from_wyckoff (src/src/site.rs lines 37-49): x and y start at
-0.5 + 0.5 / multiplicity and the angle at 0. -/
noncomputable def OccupiedSite.from_wyckoff (w : WyckoffSite) : OccupiedSite :=
  let position : ℝ := -0.5 + 0.5 / (w.multiplicity : ℝ)
  ⟨w, position, position, 0⟩

/-- The transform the free scalars describe: Transform2::new((x, y), angle)
(src/src/site.rs lines 33-35). -/
noncomputable def OccupiedSite.siteTransform (s : OccupiedSite) : Transform2 :=
  Transform2.new s.angle (s.x, s.y)

/-- Modelled from the spec: positions() yields multiplicity transforms, each
Wyckoff symmetry applied to (x, y, angle) (spec section 3, OccupiedSite); the
crystal-packing site.rs is not under src/. -/
noncomputable def OccupiedSite.positions (s : OccupiedSite) : List Transform2 :=
  s.wyckoff.symmetries.map fun sym => sym.compose s.siteTransform

/-- Shape as the packing state consumes it: the trait methods area() and
enclosing_radius(), and the posed intersection test
shape.transform(t1).intersects(shape.transform(t2)) as a function of the two
transforms (traits Shape and Intersect; the shape geometry code is not under
src/, its interface is spec section 4.2). -/
structure ShapeModel where
  area : ℝ
  enclosing_radius : ℝ
  intersectsAt : Transform2 → Transform2 → Bool

/-- Modelled from the spec: a convex polygon given by vertex radii at equally
spaced angles (spec section 3, LineShape); the crystal-packing shape code is
not under src/. -/
structure LineShape where
  name : String
  radial_points : List ℝ

/-- Modelled from the spec: enclosing_radius of a radial polygon is the
largest vertex radius. -/
noncomputable def LineShape.enclosing_radius (s : LineShape) : ℝ :=
  s.radial_points.foldr max 0

/-- Modelled from the spec: area of a radial polygon,
one half of the cyclic sum of r_i r_(i+1) sin(2 pi / n). -/
noncomputable def LineShape.area (s : LineShape) : ℝ :=
  let n := s.radial_points.length
  (1 / 2) * ∑ i ∈ Finset.range n,
      s.radial_points.getD i 0 * s.radial_points.getD ((i + 1) % n) 0 *
        Real.sin (2 * Real.pi / (n : ℝ))

/-- Modelled from the spec: LineShape::from_radial fails on fewer than three
radii or a non-positive radius (spec section 4.2). -/
noncomputable def LineShape.from_radial (name : String) (radii : List ℝ) :
    Except String LineShape :=
  if radii.length < 3 ∨ ∃ r ∈ radii, r ≤ 0 then Except.error "invalid radial shape"
  else Except.ok ⟨name, radii⟩

/-- The ShapeModel of a radial polygon, its posed intersection test supplied
as a parameter (the polygon intersection algorithm is not under src/). -/
noncomputable def LineShape.toShape (s : LineShape)
    (inter : Transform2 → Transform2 → Bool) : ShapeModel :=
  ⟨s.area, s.enclosing_radius, inter⟩

/-- The packed configuration: wallpaper, shape, cell and occupied sites
(src/crystal-packing/src/state/packed.rs lines 24-33). -/
structure PackedState where
  wallpaper : Wallpaper
  shape : ShapeModel
  cell : Cell
  occupied_sites : List OccupiedSite

/-- total_shapes(): the sum of the occupied sites' multiplicities
(src/crystal-packing/src/state/packed.rs lines 74-78). -/
def PackedState.total_shapes (s : PackedState) : ℕ :=
  s.occupied_sites.foldl (fun sum site => sum + site.multiplicity) 0

/-- relative_positions(): every occupied site's positions, in fractional
coordinates (src/crystal-packing/src/state/packed.rs lines 117-119). -/
noncomputable def PackedState.relative_positions (s : PackedState) : List Transform2 :=
  s.occupied_sites.bind OccupiedSite.positions

/-- cartesian_positions(): relative_positions converted to world coordinates
(src/crystal-packing/src/state/packed.rs lines 112-115). -/
noncomputable def PackedState.cartesian_positions (s : PackedState) : List Transform2 :=
  s.relative_positions.map s.cell.to_cartesian_isometry

/-- Any unordered pair of the list, the second drawn after the first,
satisfying f: the enumerate/skip(index + 1) double loop of the home-cell
check (src/crystal-packing/src/state/packed.rs lines 134-148). -/
def pairwiseAny (f : α → α → Bool) : List α → Bool
  | [] => false
  | x :: xs => xs.any (f x) || pairwiseAny f xs

/-- The neighbour-search range of check_intersection, matched on
(a / b, angle) (src/crystal-packing/src/state/packed.rs lines 128-132). -/
noncomputable def Cell.periodic_range (c : Cell) : ℕ :=
  if 0.5 < c.a / c.b ∧ c.a / c.b < 2 ∧ |c.angle - Real.pi / 2| < 0.2 then 1
  else if 0.3 < c.a / c.b ∧ c.a / c.b < 3 ∧ |c.angle - Real.pi / 2| < 0.5 then 2
  else 3

/-- The spec's table for the neighbour-search radius, as a function of
rho = a / b and delta, the distance of gamma from a right angle
(spec section 4.4). -/
noncomputable def rangeSpec (rho delta : ℝ) : ℕ :=
  if 0.5 < rho ∧ rho < 2 ∧ delta < 0.2 then 1
  else if 0.3 < rho ∧ rho < 3 ∧ delta < 0.5 then 2
  else 3

/-- The cutoff radius squared: (2 enclosing_radius)^2
(src/crystal-packing/src/state/packed.rs line 150). -/
noncomputable def PackedState.radiusSq (s : PackedState) : ℝ :=
  (s.shape.enclosing_radius * 2) ^ 2

/-- Home-cell phase of check_intersection: any unordered pair of posed shapes
in the cell intersecting (src/crystal-packing/src/state/packed.rs
lines 134-148). -/
noncomputable def PackedState.check_intersection_home (s : PackedState) : Bool :=
  pairwiseAny s.shape.intersectsAt s.cartesian_positions

/-- Periodic phase of check_intersection: for every home transform t1 and
every periodic image t2 of a site position (include_self false), the posed
intersection is consulted when the squared translation distance is within the
cutoff (src/crystal-packing/src/state/packed.rs lines 150-165). -/
noncomputable def PackedState.check_intersection_periodic (s : PackedState)
    (range : ℕ) : Bool :=
  s.cartesian_positions.any fun t1 =>
    s.relative_positions.any fun p =>
      (s.cell.periodic_images p range false).any fun t2 =>
        decide (t1.distSq t2 ≤ s.radiusSq) && s.shape.intersectsAt t1 t2

/-- check_intersection (src/crystal-packing/src/state/packed.rs
lines 127-167): the home-cell phase, then the periodic phase at the
neighbour-search range of the cell. -/
noncomputable def PackedState.check_intersection (s : PackedState) : Bool :=
  s.check_intersection_home || s.check_intersection_periodic s.cell.periodic_range

/-- score() (src/crystal-packing/src/state/packed.rs lines 80-86): none on
intersection, otherwise the packing fraction. -/
noncomputable def PackedState.score (s : PackedState) : Option ℝ :=
  if s.check_intersection then none
  else some (s.shape.area * (s.total_shapes : ℝ) / s.cell.area)

/-- Derived equality of states (src/crystal-packing/src/state/packed.rs
lines 37-47): the two scores compared when both exist, false otherwise. -/
noncomputable def PackedState.beq (a b : PackedState) : Bool :=
  match a.score, b.score with
  | some s, some o => decide (s = o)
  | _, _ => false

/-- PartialOrd for PackedState (src/crystal-packing/src/state/packed.rs
lines 49-59): the two scores compared when both exist, no ordering
otherwise. Ord::cmp (lines 61-68) is this comparison unwrapped. -/
noncomputable def PackedState.partialCmp (a b : PackedState) : Option Ordering :=
  match a.score, b.score with
  | some s, some o => some (compare s o)
  | _, _ => none

/-- PackedState::initialise (src/crystal-packing/src/state/packed.rs
lines 169-189): the cell is seeded at 4 enclosing_radius total-multiplicity,
and every Wyckoff site is occupied through from_wyckoff. -/
noncomputable def PackedState.initialise (shape : ShapeModel) (wallpaper : Wallpaper)
    (isopointal : List WyckoffSite) : PackedState :=
  let num_shapes : ℕ := isopointal.foldl (fun acc x => acc + x.multiplicity) 0
  let max_cell_size := 4 * shape.enclosing_radius * (num_shapes : ℝ)
  let cell := Cell.from_family wallpaper.family max_cell_size
  let occupied_sites := isopointal.map OccupiedSite.from_wyckoff
  ⟨wallpaper, shape, cell, occupied_sites⟩

/-- The Monte-Carlo acceptance value
(src/src/lib.rs lines 572-574): exp((1/old - 1/new)/kt) (old/new)^n. -/
noncomputable def mc_temperature (old new kt : ℝ) (n : ℕ) : ℝ :=
  Real.exp ((1 / old - 1 / new) / kt) * (old / new) ^ n

/-- The recognized wallpaper groups
(src/crystal-packing/src/wallpaper.rs lines 85-95). -/
inductive WallpaperGroups where
  | p1
  | p2
  | p1m1
  | p1g1
  | p2mm
  | p2mg
  | p2gg
deriving DecidableEq

/-- A wallpaper-group descriptor: name, crystal family and the Wyckoff
operation strings (src/crystal-packing/src/wallpaper.rs lines 13-18). -/
structure WallpaperGroup where
  name : String
  family : CrystalFamily
  wyckoff_str : List String
deriving DecidableEq

/-- FromStr for WallpaperGroups (src/crystal-packing/src/wallpaper.rs
lines 97-112): the seven group names plus the alias pg, anything else an
error. -/
def wallpaperGroupsFromStr (s : String) : Except String WallpaperGroups :=
  if s = "p1" then Except.ok WallpaperGroups.p1
  else if s = "p2" then Except.ok WallpaperGroups.p2
  else if s = "p1m1" then Except.ok WallpaperGroups.p1m1
  else if s = "p1g1" then Except.ok WallpaperGroups.p1g1
  else if s = "pg" then Except.ok WallpaperGroups.p1g1
  else if s = "p2mm" then Except.ok WallpaperGroups.p2mm
  else if s = "p2mg" then Except.ok WallpaperGroups.p2mg
  else if s = "p2gg" then Except.ok WallpaperGroups.p2gg
  else Except.error "Invalid Value"

/-- TryFrom WallpaperGroups for WallpaperGroup
(src/crystal-packing/src/wallpaper.rs lines 134-176), with the literal
strings of the source, spaces included. -/
def wallpaperGroupData : WallpaperGroups → Except String WallpaperGroup
  | WallpaperGroups.p1 =>
      Except.ok ⟨"p1", CrystalFamily.Monoclinic, ["x,y"]⟩
  | WallpaperGroups.p2 =>
      Except.ok ⟨"p2", CrystalFamily.Monoclinic, ["x,y", "-x,-y"]⟩
  | WallpaperGroups.p1m1 =>
      Except.ok ⟨"p1m1", CrystalFamily.Orthorhombic, ["x,y", "-x,y"]⟩
  | WallpaperGroups.p1g1 =>
      Except.ok ⟨"p1m1", CrystalFamily.Orthorhombic, ["x,y", "-x,y+1/2"]⟩
  | WallpaperGroups.p2mm =>
      Except.ok ⟨"p2mm", CrystalFamily.Orthorhombic, ["x,y", "-x,-y", "-x,y", "x,-y"]⟩
  | WallpaperGroups.p2mg =>
      Except.ok ⟨"p2mg", CrystalFamily.Orthorhombic,
        ["x,y", "-x, -y", "-x+1/2, y", "x+1/2, -y"]⟩
  | WallpaperGroups.p2gg =>
      Except.ok ⟨"p2gg", CrystalFamily.Orthorhombic,
        ["x,y", "-x, -y", "-x+1/2, y+1/2", "x+1/2, -y+1/2"]⟩

/-- Errors of the optimizer (spec section 7). -/
inductive PackingError where
  | NoFeasibleState
deriving DecidableEq

/-- Monte-Carlo parameters (src/src/lib.rs lines 558-564 and the seed of
tests/packing.rs). -/
structure MCVars where
  kt_start : ℝ
  kt_finish : ℝ
  max_step_size : ℝ
  num_start_configs : ℕ
  steps : ℕ
  seed : Option ℕ

/-- Cooling ratio (kt_finish / kt_start)^(1/steps)
(src/src/lib.rs lines 566-570). -/
noncomputable def MCVars.kt_ratio (v : MCVars) : ℝ :=
  (v.kt_finish / v.kt_start) ^ ((1 : ℝ) / (v.steps : ℝ))

/-- Does a candidate packing fraction beat the best snapshot so far? True
when no snapshot exists yet. -/
noncomputable def mcBeats (best : Option (PackedState × ℝ)) (p : ℝ) : Bool :=
  match best with
  | none => true
  | some (_, pm) => decide (pm < p)

/-- Best-snapshot update by one candidate: an unscored candidate changes
nothing, a scored one replaces the snapshot when it strictly beats it. -/
noncomputable def mcUpd (best : Option (PackedState × ℝ)) (c : PackedState) :
    Option (PackedState × ℝ) :=
  match c.score with
  | none => best
  | some p =>
    match best with
    | none => some (c, p)
    | some (s, pm) => if pm < p then some (c, p) else some (s, pm)

/-- The best valid state of a list of visited states, with its score: the
earliest state of maximal score, none when no state scores. -/
noncomputable def bestOf (l : List PackedState) : Option (PackedState × ℝ) :=
  l.foldl mcUpd none

/-- Modelled from the spec: the annealing loop of section 4.6 (the
crystal-packing optimisation.rs is not under src/; src/src/lib.rs lines
576-623 is an early draft without the failure path). Each step k proposes a
perturbed state (propose abstracts the random basis move of steps 1-3), a
candidate with no score is rejected, one beating the best snapshot becomes
the snapshot, otherwise the acceptance rule with the uniform draw u k
decides; kt cools by ratio each step. Returns the final state, the best
snapshot and the list of candidates visited, in order. -/
noncomputable def mcLoop (propose : ℕ → PackedState → PackedState) (u : ℕ → ℝ)
    (n : ℕ) (ratio : ℝ) :
    ℕ → ℕ → PackedState → Option (PackedState × ℝ) → ℝ → ℝ →
      PackedState × Option (PackedState × ℝ) × List PackedState
  | 0, _, cur, best, _, _ => (cur, best, [])
  | steps + 1, k, cur, best, pprev, kt =>
    let cand := propose k cur
    let r :=
      match cand.score with
      | none => mcLoop propose u n ratio steps (k + 1) cur best pprev (kt * ratio)
      | some p =>
        if mcBeats best p then
          mcLoop propose u n ratio steps (k + 1) cand (some (cand, p)) p (kt * ratio)
        else if u k ≤ mc_temperature pprev p kt n then
          mcLoop propose u n ratio steps (k + 1) cand best p (kt * ratio)
        else
          mcLoop propose u n ratio steps (k + 1) cur best pprev (kt * ratio)
    (r.1, r.2.1, cand :: r.2.2)

/-- Modelled from the spec: monte_carlo_best_packing (spec section 4.6
Output): run the loop from the initial state; return the best snapshot,
else the initial state when it scores, else fail with NoFeasibleState. -/
noncomputable def monte_carlo_best_packing (vars : MCVars)
    (propose : ℕ → PackedState → PackedState) (u : ℕ → ℝ)
    (state : PackedState) : Except PackingError PackedState :=
  let r := mcLoop propose u state.total_shapes vars.kt_ratio vars.steps 0 state
    none 0 vars.kt_start
  match r.2.1 with
  | some bp => Except.ok bp.1
  | none =>
    match state.score with
    | some _ => Except.ok state
    | none => Except.error PackingError.NoFeasibleState

/-- The candidates an optimizer run visits, in order. -/
noncomputable def mcVisited (vars : MCVars)
    (propose : ℕ → PackedState → PackedState) (u : ℕ → ℝ)
    (state : PackedState) : List PackedState :=
  (mcLoop propose u state.total_shapes vars.kt_ratio vars.steps 0 state
    none 0 vars.kt_start).2.2

/-- The square of the tests: four unit radii
(src/crystal-packing/src/state/packed.rs lines 204-206). -/
def squareLine : LineShape := ⟨"Square", [1, 1, 1, 1]⟩

/-- Wallpaper p1 (src/crystal-packing/src/state/packed.rs lines 209-212). -/
def p1Wallpaper : Wallpaper := ⟨"p1", CrystalFamily.Monoclinic⟩

/-- Wyckoff site of p1: the single operation x,y
(src/crystal-packing/src/state/packed.rs lines 213-219). -/
noncomputable def p1Wyckoff : WyckoffSite :=
  ⟨ 'a', [Transform2.from_operations "x,y"], 1, false, false⟩

/-- The default initial state for the square under p1, the posed intersection
test of the polygon left as a parameter
(src/crystal-packing/src/state/packed.rs lines 245-255). -/
noncomputable def p1State (inter : Transform2 → Transform2 → Bool) : PackedState :=
  PackedState.initialise (squareLine.toShape inter) p1Wallpaper [p1Wyckoff]

/-- A state whose shapes always intersect: two copies of a site on top of
each other with an intersection test that is constantly true. -/
noncomputable def badShape : ShapeModel := ⟨2, 1, fun _ _ => true⟩

/-- A Wyckoff site of multiplicity two, both symmetries the identity. -/
noncomputable def badWyckoff : WyckoffSite :=
  ⟨ 'd', [Transform2.identity, Transform2.identity], 1, false, false⟩

/-- A concrete state that scores none: its two home-cell copies intersect. -/
noncomputable def badState : PackedState :=
  PackedState.initialise badShape ⟨"p2", CrystalFamily.Monoclinic⟩ [badWyckoff]

/-- The square p1 state with an intersection test that is constantly false:
a concrete state with a score. -/
noncomputable def goodState : PackedState := p1State fun _ _ => false

/-- C1: for every PackedState, score() returns none exactly when
check_intersection() returns true, and otherwise returns some of
shape area times total_shapes over cell area, the packing fraction. -/
theorem score_none_iff_check_intersection (s : PackedState) :
    (s.score = none ↔ s.check_intersection = true) ∧
      (s.check_intersection = false →
        s.score = some (s.shape.area * (s.total_shapes : ℝ) / s.cell.area)) := by
  unfold PackedState.score
  cases h : s.check_intersection <;> simp [h]

/-- C2: check_intersection is the home phase followed by the periodic phase,
and the periodic phase returns true exactly when some home transform t1 and
some periodic image t2 of a site position (include_self false) lie within the
squared cutoff (2 enclosing_radius)^2 of each other and the posed shapes
intersect: pairs beyond the cutoff are never consulted, the first
intersecting pair decides true, and with no tested intersecting pair the
phase is false. -/
theorem check_intersection_periodic_phase_spec (s : PackedState) :
    (s.check_intersection =
        (s.check_intersection_home ||
          s.check_intersection_periodic s.cell.periodic_range)) ∧
      (s.check_intersection_periodic s.cell.periodic_range = true ↔
        ∃ t1 ∈ s.cartesian_positions, ∃ p ∈ s.relative_positions,
          ∃ t2 ∈ s.cell.periodic_images p s.cell.periodic_range false,
            t1.distSq t2 ≤ (2 * s.shape.enclosing_radius) ^ 2 ∧
              s.shape.intersectsAt t1 t2 = true) := by
  have hr : s.radiusSq = (2 * s.shape.enclosing_radius) ^ 2 := by
    unfold PackedState.radiusSq; ring
  refine ⟨rfl, ?_⟩
  rw [← hr]
  simp [PackedState.check_intersection_periodic, List.any_eq_true, Bool.and_eq_true,
    decide_eq_true_eq]

/-- C3: the neighbour-search range used by check_intersection depends only on
rho = a / b and delta, the distance of the cell angle from a right angle, and
follows the table: 1 when 0.5 < rho < 2 and delta < 0.2, else 2 when
0.3 < rho < 3 and delta < 0.5, else 3. -/
theorem periodic_range_function_of_rho_delta (c : Cell) :
    c.periodic_range = rangeSpec (c.a / c.b) |c.angle - Real.pi / 2| := rfl

/-- C9: OccupiedSite::from_wyckoff seeds both x and y at
-0.5 + 0.5 / multiplicity and the angle at 0. -/
theorem occupied_site_from_wyckoff_initial (w : WyckoffSite) :
    (OccupiedSite.from_wyckoff w).x = -0.5 + 0.5 / (w.multiplicity : ℝ) ∧
      (OccupiedSite.from_wyckoff w).y = -0.5 + 0.5 / (w.multiplicity : ℝ) ∧
      (OccupiedSite.from_wyckoff w).angle = 0 :=
  ⟨rfl, rfl, rfl⟩

/-- C5 (amended): two scored states compare by their scores under
partial_cmp; when either state is unscored the comparison yields no ordering
at all (and Ord::cmp, which unwraps it, has no defined result there) rather
than placing the unscored state strictly below the scored one. -/
theorem partialCmp_by_scores :
    (∀ a b : PackedState, ∀ x y : ℝ, a.score = some x → b.score = some y →
        a.partialCmp b = some (compare x y)) ∧
      (∀ a b : PackedState, a.score = none ∨ b.score = none →
        a.partialCmp b = none) := by
  constructor
  · intro a b x y hx hy
    unfold PackedState.partialCmp
    rw [hx, hy]
  · intro a b h
    cases ha : a.score <;> cases hb : b.score <;>
      simp_all [PackedState.partialCmp]

/-- C10: the derived equality compares the two scores and yields false when
either is none, so a state whose score is none is not equal to itself even
though the Rust type claims a total equivalence through Eq. -/
theorem beq_irreflexive_on_unscored (s : PackedState) (h : s.score = none) :
    s.beq s = false := by
  unfold PackedState.beq
  rw [h]

/-- C8 counterexample: converting p1g1 yields a descriptor whose stored name
is p1m1, not p1g1, and the p2mg operation strings of the source carry a space
after the comma, differing from the exact strings of the table. -/
theorem wallpaper_p1g1_name_slip :
    wallpaperGroupData WallpaperGroups.p1g1 =
        Except.ok ⟨"p1m1", CrystalFamily.Orthorhombic, ["x,y", "-x,y+1/2"]⟩ ∧
      ("p1m1" : String) ≠ "p1g1" ∧
      wallpaperGroupData WallpaperGroups.p2mg =
        Except.ok ⟨"p2mg", CrystalFamily.Orthorhombic,
          ["x,y", "-x, -y", "-x+1/2, y", "x+1/2, -y"]⟩ ∧
      ("-x, -y" : String) ≠ "-x,-y" :=
  ⟨rfl, by decide, rfl, by decide⟩

/-- C8 (amended): parsing a wallpaper-group name succeeds exactly for p1, p2,
p1m1, p1g1, p2mm, p2mg, p2gg and the alias pg (mapped to p1g1), and
converting each group yields the source's literal descriptor: family and
operations match the table of section 6 up to whitespace, but the p1g1
descriptor stores the name p1m1, and the p2mg and p2gg operations after the
first carry a space following the comma. -/
theorem wallpaper_group_tables :
    (∀ s : String, (wallpaperGroupsFromStr s).isOk = true ↔
        s ∈ ["p1", "p2", "p1m1", "p1g1", "pg", "p2mm", "p2mg", "p2gg"]) ∧
      wallpaperGroupsFromStr "pg" = Except.ok WallpaperGroups.p1g1 ∧
      wallpaperGroupData WallpaperGroups.p1 =
        Except.ok ⟨"p1", CrystalFamily.Monoclinic, ["x,y"]⟩ ∧
      wallpaperGroupData WallpaperGroups.p2 =
        Except.ok ⟨"p2", CrystalFamily.Monoclinic, ["x,y", "-x,-y"]⟩ ∧
      wallpaperGroupData WallpaperGroups.p1m1 =
        Except.ok ⟨"p1m1", CrystalFamily.Orthorhombic, ["x,y", "-x,y"]⟩ ∧
      wallpaperGroupData WallpaperGroups.p1g1 =
        Except.ok ⟨"p1m1", CrystalFamily.Orthorhombic, ["x,y", "-x,y+1/2"]⟩ ∧
      wallpaperGroupData WallpaperGroups.p2mm =
        Except.ok ⟨"p2mm", CrystalFamily.Orthorhombic,
          ["x,y", "-x,-y", "-x,y", "x,-y"]⟩ ∧
      wallpaperGroupData WallpaperGroups.p2mg =
        Except.ok ⟨"p2mg", CrystalFamily.Orthorhombic,
          ["x,y", "-x, -y", "-x+1/2, y", "x+1/2, -y"]⟩ ∧
      wallpaperGroupData WallpaperGroups.p2gg =
        Except.ok ⟨"p2gg", CrystalFamily.Orthorhombic,
          ["x,y", "-x, -y", "-x+1/2, y+1/2", "x+1/2, -y+1/2"]⟩ := by
  refine ⟨?_, rfl, rfl, rfl, rfl, rfl, rfl, rfl, rfl⟩
  intro s
  unfold wallpaperGroupsFromStr
  split_ifs with h1 h2 h3 h4 h5 h6 h7 h8 <;>
    simp_all [Except.isOk, Except.toBool]

/-- C4 counterexample: with p_old = 1/2, p_new = 1, kt = 1 and n = 10 shapes
(inputs satisfying every precondition of the claim) the acceptance value is
exp(1) / 1024, strictly below 1, so a packing-increasing move is not always
accepted. -/
theorem mc_temperature_increasing_not_always_accepted :
    (0 : ℝ) < 1 / 2 ∧ (1 / 2 : ℝ) < 1 ∧ (0 : ℝ) < 1 ∧ (1 : ℕ) ≤ 10 ∧
      mc_temperature (1 / 2) 1 1 10 < 1 := by
  refine ⟨by norm_num, by norm_num, by norm_num, by norm_num, ?_⟩
  unfold mc_temperature
  have h := Real.exp_one_lt_d9
  have hp : (0 : ℝ) < Real.exp 1 := Real.exp_pos 1
  norm_num
  nlinarith

/-- C4 (amended): for 0 < p_old < p_new, kt > 0 and n at least 1, the
acceptance value exp((1/p_old - 1/p_new)/kt) (p_old/p_new)^n is at least 1
exactly when n log(p_new/p_old) is at most (1/p_old - 1/p_new)/kt; a
packing-increasing move is therefore certainly accepted only when kt is small
enough against the n-shape bias, not unconditionally. -/
theorem mc_temperature_ge_one_iff (old new kt : ℝ) (n : ℕ) (h0 : 0 < old)
    (h1 : old < new) (hkt : 0 < kt) (hn : 1 ≤ n) :
    1 ≤ mc_temperature old new kt n ↔
      (n : ℝ) * Real.log (new / old) ≤ (1 / old - 1 / new) / kt := by
  have hnew : (0 : ℝ) < new := h0.trans h1
  have hr : 0 < new / old := div_pos hnew h0
  have hrn : 0 < (new / old) ^ n := pow_pos hr n
  unfold mc_temperature
  have hdiv : (old / new) ^ n = ((new / old) ^ n)⁻¹ := by
    rw [← inv_pow, inv_div]
  rw [hdiv, ← div_eq_mul_inv, one_le_div hrn, ← Real.log_le_iff_le_exp hrn,
    Real.log_pow]

/-- Witness for C4: at p_old = 1/2, p_new = 1, kt = 1/100 and n = 1 the
characterisation applies. -/
theorem mc_temperature_ge_one_iff_witness :
    1 ≤ mc_temperature (1 / 2) 1 (1 / 100) 1 ↔
      ((1 : ℕ) : ℝ) * Real.log (1 / (1 / 2)) ≤ (1 / (1 / 2) - 1 / 1) / (1 / 100) :=
  mc_temperature_ge_one_iff (1 / 2) 1 (1 / 100) 1 (by norm_num) (by norm_num)
    (by norm_num) (by norm_num)

/-- The bad state has two coincident home-cell copies and a constantly true
intersection test, so check_intersection is true. -/
theorem badState_check : badState.check_intersection = true := by
  unfold badState PackedState.check_intersection PackedState.check_intersection_home
  simp [PackedState.initialise, PackedState.cartesian_positions,
    PackedState.relative_positions, OccupiedSite.positions, badWyckoff, badShape,
    OccupiedSite.from_wyckoff, pairwiseAny]

/-- The bad state scores none. -/
theorem badState_score : badState.score = none := by
  unfold PackedState.score
  rw [badState_check]
  rfl

/-- Witness for C10: the concrete unscored state is not equal to itself. -/
theorem beq_irreflexive_on_unscored_witness : badState.beq badState = false :=
  beq_irreflexive_on_unscored badState badState_score

/-- The enclosing radius of the unit square is 1. -/
theorem square_enclosing : squareLine.enclosing_radius = 1 := by
  have h0 : max (1 : ℝ) 0 = 1 := max_eq_left (by norm_num)
  simp [LineShape.enclosing_radius, squareLine, h0, max_self]

/-- The area of the unit square is 2. -/
theorem square_area : squareLine.area = 2 := by
  have h : 2 * Real.pi / (4 : ℝ) = Real.pi / 2 := by ring
  unfold LineShape.area
  simp only [squareLine, List.length_cons, List.length_nil]
  rw [Finset.sum_range_succ, Finset.sum_range_succ, Finset.sum_range_succ,
    Finset.sum_range_succ, Finset.sum_range_zero]
  norm_num
  rw [h, Real.sin_pi_div_two]
  norm_num

/-- Parsing the identity operation x,y gives the identity transform. -/
theorem from_operations_xy : Transform2.from_operations "x,y" = Transform2.identity := rfl

/-- The p1 site starts at the origin: multiplicity one puts x and y at
-0.5 + 0.5/1 = 0. -/
theorem p1_site_initial :
    OccupiedSite.from_wyckoff p1Wyckoff = ⟨p1Wyckoff, 0, 0, 0⟩ := by
  unfold OccupiedSite.from_wyckoff
  norm_num [WyckoffSite.multiplicity, p1Wyckoff, OccupiedSite.mk.injEq]

/-- The shape of the square p1 state: area 2, enclosing radius 1. -/
theorem p1State_shape (inter : Transform2 → Transform2 → Bool) :
    (p1State inter).shape = ⟨2, 1, inter⟩ := by
  unfold p1State PackedState.initialise
  simp [LineShape.toShape, square_enclosing, square_area]

/-- The cell of the square p1 state: a 4 by 4 cell at a right angle. -/
theorem p1State_cell (inter : Transform2 → Transform2 → Bool) :
    (p1State inter).cell = ⟨4, 4, Real.pi / 2, CrystalFamily.Monoclinic⟩ := by
  unfold p1State PackedState.initialise
  simp [LineShape.toShape, square_enclosing, p1Wallpaper, WyckoffSite.multiplicity,
    p1Wyckoff, Cell.from_family, Cell.mk.injEq]

/-- The occupied sites of the square p1 state: the single p1 site at the
origin. -/
theorem p1State_sites (inter : Transform2 → Transform2 → Bool) :
    (p1State inter).occupied_sites = [⟨p1Wyckoff, 0, 0, 0⟩] := by
  unfold p1State PackedState.initialise
  simp [p1_site_initial]

/-- Transform2::new at angle 0 and the origin is the identity. -/
theorem new_zero : Transform2.new 0 0 = Transform2.identity := by
  unfold Transform2.new Transform2.identity
  simp [Transform2.mk.injEq, Real.cos_zero, Real.sin_zero]

/-- Composing the identity with a transform gives that transform. -/
theorem identity_compose (t : Transform2) :
    Transform2.identity.compose t = t := by
  cases t
  unfold Transform2.identity Transform2.compose
  simp [Transform2.mk.injEq]

/-- The p1 site at the origin has the identity as its single position. -/
theorem p1_positions :
    OccupiedSite.positions ⟨p1Wyckoff, 0, 0, 0⟩ = [Transform2.identity] := by
  unfold OccupiedSite.positions OccupiedSite.siteTransform
  simp [p1Wyckoff, from_operations_xy, new_zero, identity_compose]

/-- Converting the identity to world coordinates in the 4 by 4 right-angled
cell gives the identity back. -/
theorem cart_id :
    (⟨4, 4, Real.pi / 2, CrystalFamily.Monoclinic⟩ : Cell).to_cartesian_isometry
      Transform2.identity = Transform2.identity := by
  unfold Cell.to_cartesian_isometry Cell.to_cartesian Transform2.identity
  simp [Transform2.mk.injEq]

/-- The square p1 state has the identity as its single fractional position. -/
theorem p1_relative (inter : Transform2 → Transform2 → Bool) :
    (p1State inter).relative_positions = [Transform2.identity] := by
  unfold PackedState.relative_positions
  rw [p1State_sites]
  simp [p1_positions]

/-- The square p1 state has the identity as its single world position. -/
theorem p1_cartesian (inter : Transform2 → Transform2 → Bool) :
    (p1State inter).cartesian_positions = [Transform2.identity] := by
  unfold PackedState.cartesian_positions
  rw [p1_relative, p1State_cell]
  simp [cart_id]

/-- Two integers not both zero have squares summing to at least one. -/
theorem int_one_le_sq_sum (i j : ℤ) (h : ¬(i = 0 ∧ j = 0)) :
    (1 : ℤ) ≤ i ^ 2 + j ^ 2 := by
  rcases not_and_or.mp h with hi | hj
  · rcases lt_or_gt_of_ne hi with h1 | h1 <;> nlinarith [sq_nonneg j]
  · rcases lt_or_gt_of_ne hj with h1 | h1 <;> nlinarith [sq_nonneg i]

/-- Every periodic image of the origin in the 4 by 4 right-angled cell lies
at squared distance at least 16 from the origin, beyond the cutoff 4. -/
theorem p1_images_far (t2 : Transform2) (r : ℕ)
    (h : t2 ∈ (⟨4, 4, Real.pi / 2, CrystalFamily.Monoclinic⟩ : Cell).periodic_images
      Transform2.identity r false) :
    ¬Transform2.identity.distSq t2 ≤ 4 := by
  unfold Cell.periodic_images at h
  simp only [List.mem_bind, List.mem_filterMap] at h
  obtain ⟨i, hi, j, hj, himg⟩ := h
  by_cases hz : i = 0 ∧ j = 0
  · rw [if_pos (by simp [hz])] at himg
    exact absurd himg (by simp)
  · rw [if_neg (by simp [hz])] at himg
    have ht2 := Option.some.inj himg
    subst ht2
    unfold Cell.periodicImage Cell.to_cartesian_isometry Cell.to_cartesian
      Transform2.identity Transform2.distSq
    simp only [Real.cos_pi_div_two, Real.sin_pi_div_two]
    have h1 : (1 : ℝ) ≤ (i : ℝ) ^ 2 + (j : ℝ) ^ 2 := by
      exact_mod_cast int_one_le_sq_sum i j hz
    intro hle
    nlinarith

/-- The square p1 state has no intersection, whatever the posed intersection
test: the single home copy has no partner and every periodic image is beyond
the cutoff. -/
theorem p1_check (inter : Transform2 → Transform2 → Bool) :
    (p1State inter).check_intersection = false := by
  have hh : (p1State inter).check_intersection_home = false := by
    unfold PackedState.check_intersection_home
    rw [p1_cartesian]
    simp [pairwiseAny]
  have hr : (p1State inter).radiusSq = 4 := by
    unfold PackedState.radiusSq
    rw [p1State_shape]
    norm_num
  have hp : ∀ r, (p1State inter).check_intersection_periodic r = false := by
    intro r
    unfold PackedState.check_intersection_periodic
    rw [p1_cartesian, p1_relative, p1State_cell, hr]
    simp only [List.any_cons, List.any_nil, Bool.or_false]
    rw [List.any_eq_false]
    intro t2 ht2
    rw [decide_eq_false (p1_images_far t2 r ht2)]
    simp
  unfold PackedState.check_intersection
  rw [hh, hp]
  rfl

/-- The square p1 state holds one shape. -/
theorem p1State_total (inter : Transform2 → Transform2 → Bool) :
    (p1State inter).total_shapes = 1 := by
  unfold PackedState.total_shapes
  rw [p1State_sites]
  simp [OccupiedSite.multiplicity, p1Wyckoff]

/-- The square p1 state scores the packing fraction 1/8. -/
theorem p1State_score (inter : Transform2 → Transform2 → Bool) :
    (p1State inter).score = some (1 / 8) := by
  unfold PackedState.score
  rw [p1_check]
  simp only [Bool.false_eq_true, if_false]
  rw [p1State_shape, p1State_cell, p1State_total]
  unfold Cell.area
  norm_num [Real.sin_pi_div_two]

/-- C7: for the square polygon under wallpaper group p1 the default initial
state holds one shape and scores the packing fraction 1/8, whatever posed
intersection test the shape carries. -/
theorem square_p1_initial_state (inter : Transform2 → Transform2 → Bool) :
    (p1State inter).total_shapes = 1 ∧ (p1State inter).score = some (1 / 8) :=
  ⟨p1State_total inter, p1State_score inter⟩

/-- C5 counterexample: a concrete state scoring none compares to a concrete
scored state with no ordering at all, not as strictly less. -/
theorem unscored_not_less_than_scored :
    badState.partialCmp goodState = none ∧
      badState.partialCmp goodState ≠ some Ordering.lt ∧
      badState.score = none ∧ goodState.score = some (1 / 8) := by
  have h2 : goodState.score = some (1 / 8) := p1State_score _
  refine ⟨?_, ?_, badState_score, h2⟩
  · unfold PackedState.partialCmp
    rw [badState_score, h2]
  · unfold PackedState.partialCmp
    rw [badState_score, h2]
    simp

/-- An unscored candidate leaves the best snapshot unchanged. -/
theorem mcUpd_score_none {b : Option (PackedState × ℝ)} {c : PackedState}
    (hc : c.score = none) : mcUpd b c = b := by
  simp [mcUpd, hc]

/-- A scored candidate beating the snapshot becomes the snapshot. -/
theorem mcUpd_of_beats {b : Option (PackedState × ℝ)} {c : PackedState} {p : ℝ}
    (hc : c.score = some p) (hb : mcBeats b p = true) :
    mcUpd b c = some (c, p) := by
  cases b with
  | none => simp [mcUpd, hc]
  | some sp =>
    obtain ⟨s, pm⟩ := sp
    have hlt : pm < p := by simpa [mcBeats] using hb
    simp [mcUpd, hc, hlt]

/-- A scored candidate not beating the snapshot leaves it unchanged. -/
theorem mcUpd_of_not_beats {b : Option (PackedState × ℝ)} {c : PackedState} {p : ℝ}
    (hc : c.score = some p) (hb : mcBeats b p = false) :
    mcUpd b c = b := by
  cases b with
  | none => simp [mcBeats] at hb
  | some sp =>
    obtain ⟨s, pm⟩ := sp
    have hlt : ¬pm < p := by simpa [mcBeats] using hb
    simp [mcUpd, hc, hlt]

/-- The best snapshot the loop returns is the fold of the snapshot update
over the visited candidates, whatever the acceptance decisions. -/
theorem mcLoop_best_eq (propose : ℕ → PackedState → PackedState) (u : ℕ → ℝ)
    (n : ℕ) (ratio : ℝ) :
    ∀ (steps k : ℕ) (cur : PackedState) (best : Option (PackedState × ℝ))
      (pprev kt : ℝ),
      (mcLoop propose u n ratio steps k cur best pprev kt).2.1 =
        (mcLoop propose u n ratio steps k cur best pprev kt).2.2.foldl mcUpd best := by
  intro steps
  induction steps with
  | zero => intro k cur best pprev kt; rfl
  | succ m ih =>
    intro k cur best pprev kt
    simp only [mcLoop]
    rcases hs : (propose k cur).score with _ | p <;> simp only [hs]
    · rw [List.foldl_cons, mcUpd_score_none hs]
      exact ih (k + 1) cur best pprev (kt * ratio)
    · split
      next hb =>
        rw [List.foldl_cons, mcUpd_of_beats hs hb]
        exact ih (k + 1) _ _ p (kt * ratio)
      next hb =>
        have hb' : mcBeats best p = false := by
          cases h2 : mcBeats best p
          · rfl
          · exact absurd h2 hb
        split
        next hu =>
          rw [List.foldl_cons, mcUpd_of_not_beats hs hb']
          exact ih (k + 1) _ _ p (kt * ratio)
        next hu =>
          rw [List.foldl_cons, mcUpd_of_not_beats hs hb']
          exact ih (k + 1) _ _ pprev (kt * ratio)

/-- What one snapshot update can do: keep the snapshot, or install a scored
candidate that beats it. -/
theorem mcUpd_cases (b : Option (PackedState × ℝ)) (c : PackedState) :
    mcUpd b c = b ∨ ∃ p, c.score = some p ∧ mcUpd b c = some (c, p) := by
  cases hc : c.score with
  | none => exact Or.inl (by simp [mcUpd, hc])
  | some p =>
    cases b with
    | none => exact Or.inr ⟨p, rfl, by simp [mcUpd, hc]⟩
    | some sp =>
      obtain ⟨s, pm⟩ := sp
      by_cases hlt : pm < p
      · exact Or.inr ⟨p, rfl, by simp [mcUpd, hc, hlt]⟩
      · exact Or.inl (by simp [mcUpd, hc, hlt])

/-- Soundness of the snapshot fold: a resulting snapshot is a scored state
and comes from the accumulator or from the list. -/
theorem foldl_mcUpd_sound :
    ∀ (l : List PackedState) (b : Option (PackedState × ℝ)),
      (∀ s p, b = some (s, p) → s.score = some p) →
      ∀ s p, l.foldl mcUpd b = some (s, p) →
        s.score = some p ∧ (b = some (s, p) ∨ s ∈ l) := by
  intro l
  induction l with
  | nil =>
    intro b hb s p h
    exact ⟨hb s p h, Or.inl h⟩
  | cons c rest ih =>
    intro b hb s p h
    rw [List.foldl_cons] at h
    have hb2 : ∀ s' p', mcUpd b c = some (s', p') → s'.score = some p' := by
      intro s' p' h'
      rcases mcUpd_cases b c with hcase | ⟨q, hq, heq⟩
      · rw [hcase] at h'
        exact hb s' p' h'
      · rw [heq] at h'
        simp only [Option.some.injEq, Prod.mk.injEq] at h'
        obtain ⟨rfl, rfl⟩ := h'
        exact hq
    obtain ⟨hsc, hin | hin⟩ := ih (mcUpd b c) hb2 s p h
    · refine ⟨hsc, ?_⟩
      rcases mcUpd_cases b c with hcase | ⟨q, hq, heq⟩
      · exact Or.inl (hcase ▸ hin)
      · rw [heq] at hin
        simp only [Option.some.injEq, Prod.mk.injEq] at hin
        obtain ⟨rfl, rfl⟩ := hin
        exact Or.inr (List.mem_cons_self c rest)
    · exact ⟨hsc, Or.inr (List.mem_cons_of_mem c hin)⟩

/-- Maximality of the snapshot fold: the resulting score dominates every
scored state of the list and the incoming accumulator. -/
theorem foldl_mcUpd_le :
    ∀ (l : List PackedState) (b : Option (PackedState × ℝ)) (s : PackedState) (p : ℝ),
      l.foldl mcUpd b = some (s, p) →
      (∀ c ∈ l, ∀ q, c.score = some q → q ≤ p) ∧
        (∀ s0 p0, b = some (s0, p0) → p0 ≤ p) := by
  intro l
  induction l with
  | nil =>
    intro b s p h
    refine ⟨by simp, ?_⟩
    intro s0 p0 hb
    rw [hb] at h
    simp only [List.foldl_nil, Option.some.injEq, Prod.mk.injEq] at h
    obtain ⟨rfl, rfl⟩ := h
    exact le_refl p0
  | cons c rest ih =>
    intro b s p h
    rw [List.foldl_cons] at h
    obtain ⟨hrest, hacc⟩ := ih (mcUpd b c) s p h
    constructor
    · intro c' hc' q hq
      rcases List.mem_cons.mp hc' with rfl | hmem
      · cases b with
        | none => exact hacc c' q (by simp [mcUpd, hq])
        | some sp =>
          obtain ⟨s0, pm⟩ := sp
          by_cases hlt : pm < q
          · exact hacc c' q (by simp [mcUpd, hq, hlt])
          · exact le_trans (not_lt.mp hlt) (hacc s0 pm (by simp [mcUpd, hq, hlt]))
      · exact hrest c' hmem q hq
    · intro s0 p0 hb
      subst hb
      cases hc : c.score with
      | none => exact hacc s0 p0 (by simp [mcUpd, hc])
      | some q =>
        by_cases hlt : p0 < q
        · exact le_trans (le_of_lt hlt) (hacc c q (by simp [mcUpd, hc, hlt]))
        · exact hacc s0 p0 (by simp [mcUpd, hc, hlt])

/-- A snapshot update yielding none started from none on an unscored
candidate. -/
theorem mcUpd_eq_none {b : Option (PackedState × ℝ)} {c : PackedState}
    (h : mcUpd b c = none) : b = none ∧ c.score = none := by
  cases hc : c.score with
  | none =>
    rw [mcUpd_score_none hc] at h
    exact ⟨h, rfl⟩
  | some q =>
    cases b with
    | none => simp [mcUpd, hc] at h
    | some sp =>
      obtain ⟨s, pm⟩ := sp
      by_cases hlt : pm < q
      · simp [mcUpd, hc, hlt] at h
      · simp [mcUpd, hc, hlt] at h

/-- No snapshot after the fold means no state of the list scored. -/
theorem foldl_mcUpd_none :
    ∀ (l : List PackedState) (b : Option (PackedState × ℝ)),
      l.foldl mcUpd b = none → b = none ∧ ∀ c ∈ l, c.score = none := by
  intro l
  induction l with
  | nil =>
    intro b h
    exact ⟨h, by simp⟩
  | cons c rest ih =>
    intro b h
    rw [List.foldl_cons] at h
    obtain ⟨hupd, hrest⟩ := ih (mcUpd b c) h
    obtain ⟨hb, hc⟩ := mcUpd_eq_none hupd
    refine ⟨hb, ?_⟩
    intro c' hc'
    rcases List.mem_cons.mp hc' with rfl | hmem
    · exact hc
    · exact hrest c' hmem

/-- C6: the optimizer returns the best valid state seen during the search
(the earliest visited state of maximal score, which dominates the score of
every visited scored state); when no visited state scored, it returns the
initial state when that state scores, and fails with NoFeasibleState
otherwise. -/
theorem monte_carlo_best_packing_output (vars : MCVars)
    (propose : ℕ → PackedState → PackedState) (u : ℕ → ℝ) (state : PackedState) :
    (monte_carlo_best_packing vars propose u state =
        match bestOf (mcVisited vars propose u state) with
        | some bp => Except.ok bp.1
        | none =>
          match state.score with
          | some _ => Except.ok state
          | none => Except.error PackingError.NoFeasibleState) ∧
      (∀ b p, bestOf (mcVisited vars propose u state) = some (b, p) →
        b ∈ mcVisited vars propose u state ∧ b.score = some p ∧
          ∀ c ∈ mcVisited vars propose u state, ∀ q, c.score = some q → q ≤ p) ∧
      (bestOf (mcVisited vars propose u state) = none →
        ∀ c ∈ mcVisited vars propose u state, c.score = none) := by
  have hb := mcLoop_best_eq propose u state.total_shapes vars.kt_ratio vars.steps 0
    state none 0 vars.kt_start
  refine ⟨?_, ?_, ?_⟩
  · unfold monte_carlo_best_packing mcVisited bestOf
    rw [← hb]
  · intro b p h
    unfold bestOf at h
    obtain ⟨hscore, hmem⟩ := foldl_mcUpd_sound (mcVisited vars propose u state) none
      (fun s p h => absurd h (by simp)) b p h
    rcases hmem with hmem | hmem
    · exact absurd hmem (by simp)
    · obtain ⟨hall, _⟩ := foldl_mcUpd_le (mcVisited vars propose u state) none b p h
      exact ⟨hmem, hscore, hall⟩
  · intro h
    unfold bestOf at h
    exact (foldl_mcUpd_none (mcVisited vars propose u state) none h).2
